/-
  Verification development for the interview-bot repository.

  Shallow embedding of:
  * the profile extraction pipeline (internal/extractor/service.go),
  * the sliding-window rate limiter (internal/telegram/handler.go),
  * the per-user interview state machine (internal/telegram/handler.go),
  * the config validator (internal/config, validateConfig).

  Conventions:
  * timestamps are `Int` (one unit = one unit of Go `time.Duration`);
  * Go strings are Lean `String`s; the byte-level operations of
    `validateUserInput` coincide with the character-level ones on the
    ASCII inputs used in concrete instances;
  * outbound `SendMessage` calls are abstracted to tags (the claims under
    study only depend on which send site fired, never on the exact text);
  * a Go runtime panic (nil-pointer dereference, slice index out of
    range) is modelled as `none`;
  * the upstream generator is an oracle: for the extractor a function
    from call index to call outcome, for the interview machine a pair of
    functions giving the outcome of each summarization / save call.
-/
import Mathlib

namespace InterviewBot

/-! ## Extraction pipeline (internal/extractor/service.go)

A parsed JSON object (`map[string]interface{}` in Go) is modelled as an
association list from field name to `Option String`:
`none` is JSON `null`, `some v` is any non-null value. A field can be
absent (no entry), present-null, or present-non-null, exactly as in Go. -/

/-- A parsed structured record: field name → (null | non-null value). -/
abbrev Record := List (String × Option String)

/-- Map-style assignment `m[k] = v`: replace the binding of `k` if present,
otherwise add one. -/
def setKey : Record → String → Option String → Record
  | [], k, v => [(k, v)]
  | (k', v') :: rest, k, v =>
    if k' = k then (k, v) :: rest else (k', v') :: setKey rest k v

/-- The retry-fill merge of `Service.ExtractProfile`
(`for k, v := range newFields { if v != nil { formatted[k] = v } }`):
every key of `newFields` carrying a non-null value is assigned into the
record, unconditionally. -/
def mergeFill (formatted : Record) (newFields : Record) : Record :=
  newFields.foldl
    (fun acc kv =>
      match kv.2 with
      | none => acc
      | some v => setKey acc kv.1 (some v))
    formatted

/-- The `missingFields` recomputation: schema fields absent from the record or
present with a null value. -/
def computeMissing (schema : List String) (rec : Record) : List String :=
  schema.filter (fun f =>
    match rec.lookup f with
    | some (some _) => false
    | _ => true)

/-- Outcome of one `apiClient.ExtractProfile` call, quotiented by what the
pipeline does with the returned text: the call errors, or it returns text
whose `json.Unmarshal` attempt yields `none` (parse failure) or a record. -/
inductive CallOutcome
  | apiErr
  | ok (parsed : Option Record)

/-- The prompt shape of one generator call made by the pipeline. -/
inductive Prompt
  | extraction (fields : List String)
  | validation
  | refill (missing : List String)
deriving DecidableEq, Repr

/-- Failure cases of `Service.ExtractProfile`, mirroring the `ProfileResult`
error strings; `missingFields` carries the list interpolated into
"Не удалось заполнить все поля профиля: %v". -/
inductive ExtractErr
  | extractionFailed
  | validationFailed
  | parseFinalFailed
  | refillFailed
  | parseRefillFailed
  | missingFields (fields : List String)
deriving DecidableEq, Repr

/-- Mirror of the Go `ProfileResult` (the JSON string is kept as the
structured record it serializes). -/
structure ProfileRes where
  success : Bool
  record : Option Record
  error : Option ExtractErr
deriving DecidableEq, Repr

/-- The bounded retry-fill loop of `ExtractProfile`
(`for len(missingFields) > 0 && attempts < 2`), recursing on the number of
attempts still allowed. Returns the final record and missing list (or the
failure of a fill call), the prompts issued, and the next generator index. -/
def refillLoop (gen : Nat → CallOutcome) (schema : List String) :
    Nat → Record → List String → Nat →
    (Except ExtractErr (Record × List String)) × List Prompt × Nat
  | 0, formatted, missing, idx => (.ok (formatted, missing), [], idx)
  | _ + 1, formatted, [], idx => (.ok (formatted, []), [], idx)
  | remaining + 1, formatted, m :: ms, idx =>
    match gen idx with
    | .apiErr => (.error .refillFailed, [.refill (m :: ms)], idx + 1)
    | .ok none => (.error .parseRefillFailed, [.refill (m :: ms)], idx + 1)
    | .ok (some newFields) =>
      let merged := mergeFill formatted newFields
      let missing' := computeMissing schema merged
      let rec' := refillLoop gen schema remaining merged missing' (idx + 1)
      (rec'.1, .refill (m :: ms) :: rec'.2.1, rec'.2.2)

/-- Model of `Service.ExtractProfile`: one extraction call against the full schema
field list, one validation call whose text is parsed, the fallback
missing-field computation, the bounded retry-fill loop, the
partial-fill failure, and metadata stamping on success.
Returns the result together with the list of generator calls issued. -/
def extractProfile (schema : List String) (gen : Nat → CallOutcome) :
    ProfileRes × List Prompt :=
  match gen 0 with
  | .apiErr => (⟨false, none, some .extractionFailed⟩, [.extraction schema])
  | .ok _ =>
    match gen 1 with
    | .apiErr => (⟨false, none, some .validationFailed⟩, [.extraction schema, .validation])
    | .ok none => (⟨false, none, some .parseFinalFailed⟩, [.extraction schema, .validation])
    | .ok (some formatted) =>
      let missing := computeMissing schema formatted
      let (res, prompts, _) := refillLoop gen schema 2 formatted missing 2
      match res with
      | .error e => (⟨false, none, some e⟩, .extraction schema :: .validation :: prompts)
      | .ok (rec, missing') =>
        if missing' ≠ [] then
          (⟨false, none, some (.missingFields missing')⟩,
            .extraction schema :: .validation :: prompts)
        else
          (⟨true, some (setKey rec "_metadata" (some "metadata")), none⟩,
            .extraction schema :: .validation :: prompts)

/-- Generator oracle refuting C1: the validation response carries
`a = "1"`, the fill-only call returns `a = "2", b = "3"`. -/
def genOverwrite : Nat → CallOutcome
  | 0 => .ok none
  | 1 => .ok (some [("a", some "1")])
  | _ => .ok (some [("a", some "2"), ("b", some "3")])

/-! ### Retry-fill loop lemmas -/

/-- Whether a prompt is a fill-only (refill) prompt. -/
def Prompt.isRefill : Prompt → Bool
  | .refill _ => true
  | _ => false

/-- Generator oracle for the spec's partial-fill example: the validation
response resolves only `name`; the two fill calls together resolve only
`age`, leaving `city` unfilled. -/
def genPartial : Nat → CallOutcome
  | 0 => .ok none
  | 1 => .ok (some [("name", some "Ann")])
  | 2 => .ok (some [("age", some "30")])
  | _ => .ok (some [])

/-- Generator oracle for a clean run: the validation response parses with
every schema field non-null. -/
def genCleanRun : Nat → CallOutcome
  | 0 => .ok none
  | 1 => .ok (some [("name", some "a"), ("age", some "b"), ("city", some "c")])
  | _ => .apiErr

/-! ## Rate limiter (internal/telegram/handler.go, `RateLimiter.IsAllowed`)

State restricted to one identity (the map entry for one `userID`): the
list of recorded admission timestamps, in recording order. -/

/-- The purge step (`if now.Sub(t) < rl.window { valid = append(valid, t) }`):
keep exactly the timestamps of age strictly less than the window. -/
def purgeTimestamps (window now : Int) (ts : List Int) : List Int :=
  ts.filter (fun t => now - t < window)

/-- Model of `RateLimiter.IsAllowed` for one identity: purge, then reject without
recording when the quota is already met, else record `now` and accept.
Returns the verdict and the new timestamp list. -/
def isAllowed (limit : Nat) (window now : Int) (ts : List Int) : Bool × List Int :=
  let valid := purgeTimestamps window now ts
  if limit ≤ valid.length then (false, valid)
  else (true, valid ++ [now])

/-- A sequence of `IsAllowed` calls at the given times, for one identity,
threading the timestamp list; returns the verdicts in order and the final
list. -/
def runCalls (limit : Nat) (window : Int) : List Int → List Int → List Bool × List Int
  | [], ts => ([], ts)
  | now :: rest, ts =>
    let step := isAllowed limit window now ts
    let next := runCalls limit window rest step.2
    (step.1 :: next.1, next.2)

/-! ## Interview configuration (internal/config) -/

/-- One interview block from the YAML config. -/
structure Block where
  id : Nat
  name : String
  title : String
  contextPrompt : String
  focusAreas : List String
  questions : List String
deriving DecidableEq, Repr

/-- The interview configuration (`Config` with its `InterviewConfig`).
`maxFollowupQuestions ≥ 0` of `validateConfig` is vacuous for `Nat`. -/
structure Cfg where
  totalBlocks : Nat
  questionsPerBlock : Nat
  maxFollowupQuestions : Nat
  blocks : List Block
deriving DecidableEq, Repr

/-- The per-block question budget `GetQuestionsPerBlock() + GetMaxFollowupQuestions()`. -/
def Cfg.maxQuestions (cfg : Cfg) : Nat :=
  cfg.questionsPerBlock + cfg.maxFollowupQuestions

/-- Per-block checks of `validateConfig`: block `i` must have ID `i+1` and
non-empty name, title and context prompt. -/
def checkBlocks : Nat → List Block → Bool
  | _, [] => true
  | i, b :: rest =>
    (b.id == i + 1 && b.name != "" && b.title != "" && b.contextPrompt != "") &&
      checkBlocks (i + 1) rest

/-- Model of `validateConfig` (config loader): positive block count and question
budget, block list length matching `total_blocks`, and per-block checks. -/
def validateConfig (cfg : Cfg) : Bool :=
  (0 < cfg.totalBlocks : Bool) && (0 < cfg.questionsPerBlock : Bool) &&
    (cfg.blocks.length == cfg.totalBlocks) && checkBlocks 0 cfg.blocks

/-! ## Interview state machine (internal/telegram/handler.go) -/

/-- Mirror of `SessionState`. -/
inductive SessionState
  | idle
  | interview
  | waitingAnswer
  | completed
deriving DecidableEq, Repr

/-- Mirror of `storage.QA`. -/
structure QA where
  question : String
  answer : String
deriving DecidableEq, Repr

/-- Mirror of `storage.BlockResult`. -/
structure BlockResult where
  blockID : Nat
  blockName : String
  questionsAndAnswers : List QA
deriving DecidableEq, Repr

/-- Mirror of `storage.InterviewResult`. -/
structure InterviewResult where
  interviewID : String
  timestamp : String
  blocks : List BlockResult
deriving DecidableEq, Repr

/-- Mirror of `UserSession`; `result` is a pointer in Go, hence `Option`. -/
structure UserSession where
  userID : Int
  interviewID : String
  currentBlock : Nat
  questionCount : Nat
  state : SessionState
  currentDialogue : List QA
  cumulativeSummaries : List String
  result : Option InterviewResult
  lastActivity : Int
deriving DecidableEq, Repr

/-- Oracle for the machine's two fallible external calls:
`interviewer.CreateSummary` (indexed by summarization-call number, `none` =
error) and `storage.SaveResult` (indexed by save-call number, `false` =
error); `sIdx`/`svIdx` are the next call numbers. -/
structure Env where
  summarize : Nat → Option String
  save : Nat → Bool
  sIdx : Nat
  svIdx : Nat

/-- Consume the next summarization-call outcome. -/
def popSummary (env : Env) : Option String × Env :=
  (env.summarize env.sIdx, { env with sIdx := env.sIdx + 1 })

/-- Consume the next save-call outcome. -/
def popSave (env : Env) : Bool × Env :=
  (env.save env.svIdx, { env with svIdx := env.svIdx + 1 })

/-- Outbound messages, abstracted to their send site (the claims under
study depend only on which site fired). -/
inductive Msg
  | rateLimited
  | notTime
  | validationTooLong
  | validationRepeated
  | welcome
  | blockInfo (b : Nat)
  | question (n : Nat) (q : String)
  | processingBlock
  | summaryError
  | blockDone (b : Nat)
  | saveError
  | analysisStarted
  | completionInfo
  | alreadyActive
  | helpMsg
  | statusMsg
  | restartMsg
  | stopMsg
  | stopNotRunning
  | profileUnavailable
  | profileReply
  | summaryReply
  | unknownCmd
deriving DecidableEq, Repr

/-- The block access `h.config.Blocks[b-1]` for 1-based block number `b`: `none` models the
index-out-of-range panic (`b = 0` gives index `-1` in Go). -/
def getBlockAt (cfg : Cfg) (b : Nat) : Option Block :=
  if 1 ≤ b then cfg.blocks.get? (b - 1) else none

/-- Model of `completeInterview`: persist the result; on failure report and return
with the session untouched; on success mark `Completed` and report.
The detached profile-extraction goroutine reads but never writes the
session, so it is not part of the session step. -/
def completeInterview (s : UserSession) (env : Env) (msgs : List Msg) :
    Option (UserSession × Env × List Msg) :=
  let p := popSave env
  if p.1 then
    some ({ s with state := .completed }, p.2, msgs ++ [.analysisStarted, .completionInfo])
  else
    some (s, p.2, msgs ++ [.saveError])

mutual

/-- Model of `finishCurrentBlock`: build the `BlockResult` (the block access
`h.config.Blocks[session.CurrentBlock-1]` panics out of range), call the
summarizer (on failure report and return), append result and summary,
advance the block index, and start the next block. -/
def finishCurrentBlock (cfg : Cfg) (s : UserSession) (env : Env) (msgs : List Msg) :
    Option (UserSession × Env × List Msg) :=
  let msgs := msgs ++ [.processingBlock]
  if hok : 1 ≤ s.currentBlock ∧ s.currentBlock ≤ cfg.blocks.length then
    let block := cfg.blocks.get ⟨s.currentBlock - 1, by omega⟩
    let blockResult : BlockResult :=
      { blockID := block.id
        blockName := block.name
        questionsAndAnswers := s.currentDialogue }
    let p := popSummary env
    match p.1 with
    | none => some (s, p.2, msgs ++ [.summaryError])
    | some summary =>
      match s.result with
      | none => none
      | some r =>
        let s' := { s with
          result := some { r with blocks := r.blocks ++ [blockResult] }
          cumulativeSummaries := s.cumulativeSummaries ++ [summary]
          currentBlock := s.currentBlock + 1 }
        startNextBlock cfg s' p.2 (msgs ++ [.blockDone s.currentBlock])
  else none
termination_by (cfg.blocks.length + 2 - s.currentBlock, 0)
decreasing_by
  simp_wf
  exact Prod.Lex.left _ _ (by omega)

/-- Model of `startNextBlock`: complete the interview once past the last block,
otherwise reset the per-block counters and emit the first question. -/
def startNextBlock (cfg : Cfg) (s : UserSession) (env : Env) (msgs : List Msg) :
    Option (UserSession × Env × List Msg) :=
  if cfg.totalBlocks < s.currentBlock then
    completeInterview s env msgs
  else
    match getBlockAt cfg s.currentBlock with
    | none => none
    | some _block =>
      let s' := { s with questionCount := 0, currentDialogue := [] }
      generateNextQuestion cfg s' env (msgs ++ [.blockInfo s.currentBlock])
termination_by (cfg.blocks.length + 2 - s.currentBlock, 2)
decreasing_by
  exact Prod.Lex.right _ (by omega)

/-- Model of `generateNextQuestion`: finish the block when the static question list
is exhausted, otherwise append the pending question and wait for the
answer. -/
def generateNextQuestion (cfg : Cfg) (s : UserSession) (env : Env) (msgs : List Msg) :
    Option (UserSession × Env × List Msg) :=
  match getBlockAt cfg s.currentBlock with
  | none => none
  | some block =>
    if block.questions.length ≤ s.questionCount then
      finishCurrentBlock cfg s env msgs
    else
      let question := block.questions.getD s.questionCount ""
      let s' := { s with
        currentDialogue := s.currentDialogue ++ [{ question := question, answer := "" }]
        state := .waitingAnswer }
      some (s', env, msgs ++ [.question (s.questionCount + 1) question])
termination_by (cfg.blocks.length + 2 - s.currentBlock, 1)
decreasing_by
  exact Prod.Lex.right _ (by omega)

end

/-- The answer-recording step of `processUserAnswer`: set the `Answer` of
the last dialogue entry, if any. -/
def setLastAnswer : List QA → String → List QA
  | [], _ => []
  | [qa], a => [{ qa with answer := a }]
  | qa :: qa' :: rest, a => qa :: setLastAnswer (qa' :: rest) a

/-- Model of `processUserAnswer`: record the answer against the last emitted
question, increment `QuestionCount`, then either emit the next question or
finish the block. -/
def processUserAnswer (cfg : Cfg) (answer : String) (s : UserSession) (env : Env) :
    Option (UserSession × Env × List Msg) :=
  let s' := { s with
    currentDialogue := setLastAnswer s.currentDialogue answer
    questionCount := s.questionCount + 1 }
  if s'.questionCount < cfg.maxQuestions then
    generateNextQuestion cfg s' env []
  else
    finishCurrentBlock cfg s' env []

/-- The two rejection cases of `validateUserInput`. -/
inductive ValErr
  | tooLong
  | repeatedChars
deriving DecidableEq, Repr

/-- Model of `validateUserInput`: reject when longer than 4000, or when longer than
10 with the first character making up more than `8/10` (integer division)
of the text (`strings.Count(text, text[:1]) > len(text)*8/10`). -/
def validateUserInput (text : String) : Option ValErr :=
  if 4000 < text.length then some .tooLong
  else
    match text.toList with
    | [] => none
    | c :: _ =>
      if 10 < text.length ∧ text.length * 8 / 10 < text.toList.count c then
        some .repeatedChars
      else none

/-- Model of `handleUserInput`: non-answers outside `WaitingAnswer` get a hint;
answers failing validation are reported with the session untouched; valid
answers refresh `LastActivity` and are processed. -/
def handleUserInput (cfg : Cfg) (now : Int) (text : String) (s : UserSession) (env : Env) :
    Option (UserSession × Env × List Msg) :=
  if s.state ≠ .waitingAnswer then some (s, env, [.notTime])
  else
    match validateUserInput text with
    | some .tooLong => some (s, env, [.validationTooLong])
    | some .repeatedChars => some (s, env, [.validationRepeated])
    | none => processUserAnswer cfg text { s with lastActivity := now } env

/-- The commands dispatched by `handleCommand` (`default` = `unknown`). -/
inductive Cmd
  | start
  | help
  | status
  | restart
  | stop
  | getprofile
  | getsummary
  | unknown
deriving DecidableEq, Repr

/-- Mirror of `resetSession`. -/
def resetSession (now : Int) (s : UserSession) : UserSession :=
  { s with
    state := .idle
    currentBlock := 0
    questionCount := 0
    currentDialogue := []
    cumulativeSummaries := []
    result := none
    interviewID := ""
    lastActivity := now }

/-- Model of `initializeInterview` (`newID` stands for the fresh `uuid.New()`,
`toString now` for the RFC3339 stamp of the start time). -/
def initializeInterview (cfg : Cfg) (now : Int) (newID : String) (s : UserSession) (env : Env) :
    Option (UserSession × Env × List Msg) :=
  let s₁ := resetSession now s
  let s₂ := { s₁ with
    interviewID := newID
    state := .interview
    currentBlock := 1
    questionCount := 0
    lastActivity := now
    result := some { interviewID := newID, timestamp := toString now, blocks := [] } }
  startNextBlock cfg s₂ env [.welcome]

/-- Model of `handleCommand` with its per-command handlers inlined. -/
def handleCommand (cfg : Cfg) (now : Int) (newID : String) (c : Cmd)
    (s : UserSession) (env : Env) : Option (UserSession × Env × List Msg) :=
  match c with
  | .start =>
    if s.state = .interview ∨ s.state = .waitingAnswer then
      some (s, env, [.alreadyActive])
    else initializeInterview cfg now newID s env
  | .help => some (s, env, [.helpMsg])
  | .status => some (s, env, [.statusMsg])
  | .restart => some (resetSession now s, env, [.restartMsg])
  | .stop =>
    if s.state = .idle then some (s, env, [.stopNotRunning])
    else some (resetSession now s, env, [.stopMsg])
  | .getprofile =>
    if s.state ≠ .completed ∨ s.interviewID = "" then
      some (s, env, [.profileUnavailable])
    else some (s, env, [.profileReply])
  | .getsummary =>
    if s.state ≠ .completed ∨ s.interviewID = "" then
      some (s, env, [.profileUnavailable])
    else some (s, env, [.summaryReply])
  | .unknown => some (s, env, [.unknownCmd])

/-- One inbound Telegram update, after `HandleUpdate`'s routing: a command
(with the uuid a fresh start would use) or free text. -/
inductive Event
  | cmd (c : Cmd) (now : Int) (newID : String)
  | text (t : String) (now : Int)

/-- Dispatch one event to the session. -/
def handleEvent (cfg : Cfg) : Event → UserSession → Env → Option (UserSession × Env × List Msg)
  | .cmd c now newID, s, env => handleCommand cfg now newID c s env
  | .text t now, s, env => handleUserInput cfg now t s env

/-- Run a sequence of inbound events; `none` as soon as one event panics. -/
def runEvents (cfg : Cfg) : List Event → UserSession → Env → Option (UserSession × Env)
  | [], s, env => some (s, env)
  | e :: es, s, env =>
    match handleEvent cfg e s env with
    | none => none
    | some (s', env', _) => runEvents cfg es s' env'

/-- The session state reached by a sequence of events. -/
def runEventsS (cfg : Cfg) (es : List Event) (s : UserSession) (env : Env) :
    Option UserSession :=
  (runEvents cfg es s env).map (fun p => p.1)

/-- The session created by `getOrCreateSession` on first access. -/
def freshSession (uid : Int) (now : Int) : UserSession :=
  { userID := uid
    interviewID := ""
    currentBlock := 0
    questionCount := 0
    state := .idle
    currentDialogue := []
    cumulativeSummaries := []
    result := none
    lastActivity := now }

/-- The 24h idle TTL of `cleanupInactiveSessions`, in seconds. -/
def maxIdle : Int := 24 * 3600

/-- Model of `cleanupInactiveSessions`: drop every session whose `LastActivity` is
before `now - 24h`, regardless of its state. -/
def cleanupInactiveSessions (now : Int) (sessions : List (Int × UserSession)) :
    List (Int × UserSession) :=
  sessions.filter (fun kv => !decide (kv.2.lastActivity < now - maxIdle))

/-! ## Concrete fixtures used by counterexamples and witnesses -/

/-- A minimal valid one-block configuration: one base question, no
follow-ups, so the per-block budget is 1. -/
def blockA : Block :=
  { id := 1, name := "family", title := "Family", contextPrompt := "ctx",
    focusAreas := [], questions := ["Q1"] }

/-- One-block configuration built from `blockA`. -/
def cfgA : Cfg :=
  { totalBlocks := 1, questionsPerBlock := 1, maxFollowupQuestions := 0,
    blocks := [blockA] }

/-- Oracle where every summarization call fails and every save succeeds. -/
def envSummaryFail : Env :=
  { summarize := fun _ => none, save := fun _ => true, sIdx := 0, svIdx := 0 }

/-- Oracle where every external call succeeds. -/
def envAllOk : Env :=
  { summarize := fun _ => some "summary", save := fun _ => true, sIdx := 0, svIdx := 0 }

/-- Oracle where summaries succeed but every save fails. -/
def envSaveFail : Env :=
  { summarize := fun _ => some "summary", save := fun _ => false, sIdx := 0, svIdx := 0 }

/-- The session reached from a fresh one by `/start` with interview id
`"id1"` at time 0 under `cfgA`: waiting for the answer to `Q1`. -/
def sWaitA : UserSession :=
  { userID := 7
    interviewID := "id1"
    currentBlock := 1
    questionCount := 0
    state := .waitingAnswer
    currentDialogue := [{ question := "Q1", answer := "" }]
    cumulativeSummaries := []
    result := some { interviewID := "id1", timestamp := toString (0 : Int), blocks := [] }
    lastActivity := 0 }

/-! ### The question-budget invariant (Inv3) -/

/-- Oracle in which every summarization call succeeds and every save
succeeds. -/
def EnvOk (env : Env) : Prop :=
  (∀ n, (env.summarize n).isSome) ∧ (∀ n, env.save n = true)

/-- The per-session question-budget invariant: the counter never exceeds
the per-block budget, and strictly below it whenever a question is
pending. -/
def Inv3 (cfg : Cfg) (s : UserSession) : Prop :=
  s.questionCount ≤ cfg.maxQuestions ∧
    (s.state = .waitingAnswer → s.questionCount < cfg.maxQuestions)

/-- The session reached by `/start` then one answer under `cfgA` with an
always-successful oracle: the interview completes. -/
def sDoneA : UserSession :=
  { userID := 7
    interviewID := "id1"
    currentBlock := 2
    questionCount := 1
    state := .completed
    currentDialogue := [{ question := "Q1", answer := "hello" }]
    cumulativeSummaries := ["summary"]
    result := some { interviewID := "id1", timestamp := toString (0 : Int),
                     blocks := [{ blockID := 1, blockName := "family",
                                  questionsAndAnswers :=
                                    [{ question := "Q1", answer := "hello" }] }] }
    lastActivity := 1 }

/-! ### The block-result invariant (InvR) -/

/-- Pre-condition threaded through the block-advance chain: an interview
is in progress, its accumulated result holds exactly the blocks
`1 .. currentBlock - 1` in order, and the block pointer is in range. -/
def ChainPre (cfg : Cfg) (s : UserSession) : Prop :=
  (s.state = .interview ∨ s.state = .waitingAnswer) ∧
  ∃ r, s.result = some r ∧
    r.blocks.map (fun br => br.blockID) = List.range' 1 (s.currentBlock - 1) ∧
    1 ≤ s.currentBlock ∧ s.currentBlock ≤ cfg.totalBlocks + 1

/-- The block-result invariant: an in-progress session carries exactly
the finished blocks `1 .. currentBlock - 1`; a completed session carries
exactly the blocks `1 .. totalBlocks`. -/
def InvR (cfg : Cfg) (s : UserSession) : Prop :=
  ((s.state = .interview ∨ s.state = .waitingAnswer) →
    ∃ r, s.result = some r ∧
      r.blocks.map (fun br => br.blockID) = List.range' 1 (s.currentBlock - 1) ∧
      1 ≤ s.currentBlock ∧ s.currentBlock ≤ cfg.totalBlocks + 1) ∧
  (s.state = .completed →
    ∃ r, s.result = some r ∧
      r.blocks.map (fun br => br.blockID) = List.range' 1 cfg.totalBlocks)

/-! ### Read-only commands and cleanup (frame effects) -/

/-- The read-only commands: status, help, the profile/summary re-fetch
commands, and the unknown-command fallback. -/
def ReadOnlyCmd (c : Cmd) : Prop :=
  c = .help ∨ c = .status ∨ c = .getprofile ∨ c = .getsummary ∨ c = .unknown

/-! ## Theorems -/

/-- Sanity: the merge on concrete records. -/
lemma mergeFill_sanity :
    mergeFill [("a", some "1")] [("a", some "2"), ("b", some "3")] =
      [("a", some "2"), ("b", some "3")] := by decide

/-- Sanity: missing-field computation on a concrete record. -/
lemma computeMissing_sanity :
    computeMissing ["name", "age", "city"] [("name", some "x"), ("age", none)] =
      ["age", "city"] := by decide

/-! ### Merge-step lemmas -/

lemma lookup_cons_self (k : String) (v : Option String) (rest : Record) :
    ((k, v) :: rest : Record).lookup k = some v := by
  simp [List.lookup]

lemma lookup_cons_ne (k k' : String) (v : Option String) (rest : Record)
    (h : k' ≠ k) : ((k, v) :: rest : Record).lookup k' = rest.lookup k' := by
  simp [List.lookup, beq_false_of_ne h]

lemma lookup_setKey_self (rec : Record) (k : String) (v : Option String) :
    (setKey rec k v).lookup k = some v := by
  induction rec with
  | nil => simp [setKey, lookup_cons_self]
  | cons kv rest ih =>
    obtain ⟨k', v'⟩ := kv
    by_cases h : k' = k
    · subst h; simp [setKey, lookup_cons_self]
    · rw [setKey, if_neg h, lookup_cons_ne _ _ _ _ (Ne.symm h)]
      exact ih

lemma lookup_setKey_ne (rec : Record) (k k' : String) (v : Option String)
    (h : k' ≠ k) : (setKey rec k v).lookup k' = rec.lookup k' := by
  induction rec with
  | nil => simp [setKey, lookup_cons_ne _ _ _ _ h]
  | cons kv rest ih =>
    obtain ⟨k₁, v₁⟩ := kv
    by_cases h1 : k₁ = k
    · subst h1
      rw [setKey, if_pos rfl, lookup_cons_ne _ _ _ _ h, lookup_cons_ne _ _ _ _ h]
    · rw [setKey, if_neg h1]
      by_cases h2 : k' = k₁
      · subst h2; rw [lookup_cons_self, lookup_cons_self]
      · rw [lookup_cons_ne _ _ _ _ h2, lookup_cons_ne _ _ _ _ h2]
        exact ih

lemma mergeFill_nil (old : Record) : mergeFill old [] = old := rfl

lemma mergeFill_cons_none (old rest : Record) (k₁ : String) :
    mergeFill old ((k₁, none) :: rest) = mergeFill old rest := rfl

lemma mergeFill_cons_some (old rest : Record) (k₁ w : String) :
    mergeFill old ((k₁, some w) :: rest) = mergeFill (setKey old k₁ (some w)) rest := rfl

lemma mergeFill_lookup_not_mem (new old : Record) (k : String)
    (h : k ∉ new.map Prod.fst) :
    (mergeFill old new).lookup k = old.lookup k := by
  induction new generalizing old with
  | nil => rw [mergeFill_nil]
  | cons kv rest ih =>
    obtain ⟨k₁, v₁⟩ := kv
    simp only [List.map_cons, List.mem_cons, not_or] at h
    match v₁ with
    | none => rw [mergeFill_cons_none]; exact ih old h.2
    | some w =>
      rw [mergeFill_cons_some]
      calc (mergeFill (setKey old k₁ (some w)) rest).lookup k
          = (setKey old k₁ (some w)).lookup k := ih _ h.2
        _ = old.lookup k := lookup_setKey_ne _ _ _ _ h.1

/-- C1 (amended) — The retry-fill merge of `ExtractProfile` assigns every
key whose returned value is non-null, overwriting an existing non-null
value; only keys the fill call returns as null or omits keep their
previous value. -/
theorem mergeFill_fill_semantics (old new : Record) (k : String)
    (hnd : (new.map Prod.fst).Nodup) :
    (∀ v, new.lookup k = some (some v) →
      (mergeFill old new).lookup k = some (some v)) ∧
    (new.lookup k = none ∨ new.lookup k = some none →
      (mergeFill old new).lookup k = old.lookup k) := by
  induction new generalizing old with
  | nil =>
    refine ⟨fun v hv => by simp [List.lookup] at hv, fun _ => by rw [mergeFill_nil]⟩
  | cons kv rest ih =>
    obtain ⟨k₁, v₁⟩ := kv
    simp only [List.map_cons, List.nodup_cons] at hnd
    by_cases hk : k = k₁
    · subst hk
      constructor
      · intro v hv
        rw [lookup_cons_self] at hv
        have hv₁ : v₁ = some v := by injection hv
        subst hv₁
        rw [mergeFill_cons_some, mergeFill_lookup_not_mem _ _ _ hnd.1,
          lookup_setKey_self]
      · intro hv
        have hv₁ : v₁ = none := by
          rcases hv with hv | hv <;> rw [lookup_cons_self] at hv
          · exact absurd hv (by simp)
          · injection hv
        subst hv₁
        rw [mergeFill_cons_none, mergeFill_lookup_not_mem _ _ _ hnd.1]
    · have hlk : ((k₁, v₁) :: rest : Record).lookup k = rest.lookup k :=
        lookup_cons_ne _ _ _ _ hk
      match v₁ with
      | none =>
        rw [mergeFill_cons_none, hlk]
        exact ih old hnd.2
      | some w =>
        rw [mergeFill_cons_some, hlk]
        refine ⟨(ih (setKey old k₁ (some w)) hnd.2).1, fun hv => ?_⟩
        calc (mergeFill (setKey old k₁ (some w)) rest).lookup k
            = (setKey old k₁ (some w)).lookup k := (ih _ hnd.2).2 hv
          _ = old.lookup k := lookup_setKey_ne _ _ _ _ hk

/-- Witness for `mergeFill_fill_semantics` at a concrete merge. -/
theorem mergeFill_fill_semantics_witness :
    (([("b", some "2")] : Record).map Prod.fst).Nodup ∧
      (mergeFill [("a", some "1")] [("b", some "2")]).lookup "b" = some (some "2") ∧
      (mergeFill [("a", some "1")] [("b", some "2"), ("c", none)]).lookup "c" =
        ([("a", some "1")] : Record).lookup "c" :=
  ⟨by decide,
   (mergeFill_fill_semantics [("a", some "1")] [("b", some "2")] "b" (by decide)).1
     "2" (by decide),
   (mergeFill_fill_semantics [("a", some "1")] [("b", some "2"), ("c", none)] "c"
     (by decide)).2 (Or.inr (by decide))⟩

/-- C1 is false on the code: a fill-only call that returns a non-null
value for an already-non-null field overwrites it — after the merge, key
`a`, which held `"1"` before the fill call, holds `"2"`, and the pipeline
ends successfully with the overwritten value. -/
theorem mergeFill_overwrites_nonNull_cex :
    (mergeFill [("a", some "1")] [("a", some "2"), ("b", some "3")]).lookup "a" =
        some (some "2") ∧
      ([("a", some "1")] : Record).lookup "a" = some (some "1") ∧
      (extractProfile ["a", "b"] genOverwrite).1 =
        ⟨true, some [("a", some "2"), ("b", some "3"), ("_metadata", some "metadata")],
          none⟩ ∧
      ¬ ((some "2" : Option String) = some "1") := by
  refine ⟨by decide, by decide, by decide, by decide⟩

lemma refillLoop_prompts_le (gen : Nat → CallOutcome) (schema : List String) :
    ∀ (remaining : Nat) (rec : Record) (missing : List String) (idx : Nat),
      (refillLoop gen schema remaining rec missing idx).2.1.length ≤ remaining := by
  intro remaining
  induction remaining with
  | zero =>
    intro rec missing idx
    simp [refillLoop]
  | succ n ih =>
    intro rec missing idx
    match missing with
    | [] => simp [refillLoop]
    | m :: ms =>
      match hg : gen idx with
      | .apiErr => simp [refillLoop, hg]
      | .ok none => simp [refillLoop, hg]
      | .ok (some nf) =>
        have hrec := ih (mergeFill rec nf)
          (computeMissing schema (mergeFill rec nf)) (idx + 1)
        simp only [refillLoop, hg, List.length_cons]
        exact Nat.succ_le_succ hrec

lemma refillLoop_ok_missing (gen : Nat → CallOutcome) (schema : List String) :
    ∀ (remaining : Nat) (rec : Record) (missing : List String) (idx : Nat),
      missing = computeMissing schema rec →
      ∀ rec' missing',
        (refillLoop gen schema remaining rec missing idx).1 = .ok (rec', missing') →
        missing' = computeMissing schema rec' := by
  intro remaining
  induction remaining with
  | zero =>
    intro rec missing idx hm rec' missing' h
    simp only [refillLoop, Except.ok.injEq, Prod.mk.injEq] at h
    obtain ⟨h1, h2⟩ := h
    subst h1; subst h2
    exact hm
  | succ n ih =>
    intro rec missing idx hm rec' missing' h
    match missing, hm with
    | [], hm =>
      simp only [refillLoop, Except.ok.injEq, Prod.mk.injEq] at h
      obtain ⟨h1, h2⟩ := h
      subst h1; subst h2
      exact hm
    | m :: ms, hm =>
      match hg : gen idx with
      | .apiErr => simp [refillLoop, hg] at h
      | .ok none => simp [refillLoop, hg] at h
      | .ok (some nf) =>
        simp only [refillLoop, hg] at h
        exact ih (mergeFill rec nf) (computeMissing schema (mergeFill rec nf))
          (idx + 1) rfl rec' missing' h

lemma refillLoop_error_shape (gen : Nat → CallOutcome) (schema : List String) :
    ∀ (remaining : Nat) (rec : Record) (missing : List String) (idx : Nat)
      (e : ExtractErr),
      (refillLoop gen schema remaining rec missing idx).1 = .error e →
      e = .refillFailed ∨ e = .parseRefillFailed := by
  intro remaining
  induction remaining with
  | zero =>
    intro rec missing idx e h
    simp [refillLoop] at h
  | succ n ih =>
    intro rec missing idx e h
    match missing with
    | [] => simp [refillLoop] at h
    | m :: ms =>
      match hg : gen idx with
      | .apiErr =>
        simp only [refillLoop, hg, Except.error.injEq] at h
        exact Or.inl h.symm
      | .ok none =>
        simp only [refillLoop, hg, Except.error.injEq] at h
        exact Or.inr h.symm
      | .ok (some nf) =>
        simp only [refillLoop, hg] at h
        exact ih (mergeFill rec nf) (computeMissing schema (mergeFill rec nf))
          (idx + 1) e h

/-- C7 — The retry-fill loop issues at most 2 fill calls, and a
missing-fields failure carries exactly the set of schema fields still
absent-or-null in the final merged record; on the spec's
`{name, age, city}` example with only `name` and `age` resolved, the
reported failure lists `[city]`. -/
theorem extractProfile_refill_bound_and_exact_missing
    (schema : List String) (gen : Nat → CallOutcome) :
    ((extractProfile schema gen).2.filter Prompt.isRefill).length ≤ 2 ∧
    (∀ fs, (extractProfile schema gen).1.error = some (.missingFields fs) →
      (extractProfile schema gen).1.success = false ∧ fs ≠ [] ∧
        ∃ rec, fs = computeMissing schema rec) ∧
    (extractProfile ["name", "age", "city"] genPartial).1 =
      ⟨false, none, some (.missingFields ["city"])⟩ := by
  refine ⟨?_, ?_, by decide⟩
  · match hg0 : gen 0 with
    | .apiErr => simp [extractProfile, hg0, Prompt.isRefill]
    | .ok o0 =>
      match hg1 : gen 1 with
      | .apiErr => simp [extractProfile, hg0, hg1, Prompt.isRefill]
      | .ok none => simp [extractProfile, hg0, hg1, Prompt.isRefill]
      | .ok (some formatted) =>
        rcases hrec : refillLoop gen schema 2 formatted
            (computeMissing schema formatted) 2 with ⟨res, prompts, idx'⟩
        have hlen : prompts.length ≤ 2 := by
          have := refillLoop_prompts_le gen schema 2 formatted
            (computeMissing schema formatted) 2
          rw [hrec] at this
          simpa using this
        have hfil : (prompts.filter Prompt.isRefill).length ≤ 2 :=
          le_trans (List.length_filter_le _ _) hlen
        match res with
        | .error e =>
          simp only [extractProfile, hg0, hg1, hrec]
          simpa [Prompt.isRefill] using hfil
        | .ok (rec, missing') =>
          by_cases hm : missing' = [] <;>
            · simp only [extractProfile, hg0, hg1, hrec]
              simp [Prompt.isRefill, hm, hfil]
  · intro fs hfs
    match hg0 : gen 0 with
    | .apiErr => rw [extractProfile] at hfs; simp [hg0] at hfs
    | .ok o0 =>
      match hg1 : gen 1 with
      | .apiErr => rw [extractProfile] at hfs; simp [hg0, hg1] at hfs
      | .ok none => rw [extractProfile] at hfs; simp [hg0, hg1] at hfs
      | .ok (some formatted) =>
        rcases hrec : refillLoop gen schema 2 formatted
            (computeMissing schema formatted) 2 with ⟨res, prompts, idx'⟩
        match res with
        | .error e =>
          rw [extractProfile] at hfs
          simp only [hg0, hg1, hrec] at hfs
          have he : e = .missingFields fs := by
            simpa using hfs
          rcases refillLoop_error_shape gen schema 2 formatted
              (computeMissing schema formatted) 2 e (by rw [hrec]) with h | h <;>
            simp [h] at he
        | .ok (rec, missing') =>
          by_cases hm : missing' = []
          · rw [extractProfile] at hfs
            simp [hg0, hg1, hrec, hm] at hfs
          · rw [extractProfile] at hfs
            simp only [hg0, hg1, hrec, hm] at hfs
            have hfs' : missing' = fs := by simpa [hm] using hfs
            subst hfs'
            refine ⟨?_, hm, rec, refillLoop_ok_missing gen schema 2 formatted
              (computeMissing schema formatted) 2 rfl rec missing' (by rw [hrec])⟩
            rw [extractProfile]
            simp [hg0, hg1, hrec, hm]

/-- Witness for `extractProfile_refill_bound_and_exact_missing`:
instantiating the missing-fields implication on the spec's example. -/
theorem extractProfile_exact_missing_witness :
    (extractProfile ["name", "age", "city"] genPartial).1.success = false ∧
      (["city"] : List String) ≠ [] ∧
      ∃ rec, (["city"] : List String) = computeMissing ["name", "age", "city"] rec :=
  (extractProfile_refill_bound_and_exact_missing ["name", "age", "city"] genPartial).2.1
    ["city"] (by decide)

/-- C8 is false on the code: on a run where the response parses and no
schema field is missing or null, the pipeline has made two generator
calls (extraction then validation) by the time `missingFields` is
computed, not one. -/
theorem extractProfile_single_call_cex :
    (extractProfile ["name", "age", "city"] genCleanRun).2 =
        [.extraction ["name", "age", "city"], .validation] ∧
      (extractProfile ["name", "age", "city"] genCleanRun).1.success = true ∧
      (extractProfile ["name", "age", "city"] genCleanRun).2.length = 2 ∧
      ¬ ((2 : Nat) = 1) := by
  refine ⟨by decide, by decide, by decide, by decide⟩

/-- C8 (amended) — Before computing `missingFields` the pipeline issues
exactly one extraction call against the full schema field list and then
exactly one validation call; on a clean run (validation response parses
with no schema field missing or null) exactly these two generator calls
are made in total. -/
theorem extractProfile_call_structure
    (schema : List String) (gen : Nat → CallOutcome) (rec : Record)
    (h0 : ∃ o, gen 0 = .ok o)
    (h1 : gen 1 = .ok (some rec))
    (hm : computeMissing schema rec = []) :
    (extractProfile schema gen).2 = [.extraction schema, .validation] ∧
      (extractProfile schema gen).1.success = true := by
  obtain ⟨o, ho⟩ := h0
  rw [extractProfile]
  simp [ho, h1, hm, refillLoop]

/-- Witness for `extractProfile_call_structure` on the clean-run oracle. -/
theorem extractProfile_call_structure_witness :
    (extractProfile ["name", "age", "city"] genCleanRun).2 =
        [.extraction ["name", "age", "city"], .validation] ∧
      (extractProfile ["name", "age", "city"] genCleanRun).1.success = true :=
  extractProfile_call_structure ["name", "age", "city"] genCleanRun
    [("name", some "a"), ("age", some "b"), ("city", some "c")]
    ⟨none, rfl⟩ rfl (by decide)

/-- Inside a window of length `W` starting at `t0`, no purge ever removes
anything, so the verdicts only count calls: with `acc` timestamps already
recorded (all at or after `t0`), call number `i` (0-based) is admitted
exactly when `acc.length + i < N`. -/
lemma runCalls_in_window (N : Nat) (W t0 : Int) :
    ∀ (times acc : List Int),
      (∀ t ∈ times, t0 ≤ t ∧ t - t0 < W) →
      (∀ t ∈ acc, t0 ≤ t) →
      (runCalls N W times acc).1 =
        (List.range times.length).map (fun i => decide (acc.length + i < N)) := by
  intro times
  induction times with
  | nil => intro acc _ _; simp [runCalls]
  | cons now rest ih =>
    intro acc hwin hacc
    have hw := hwin now (List.mem_cons_self _ _)
    have hwin' : ∀ t ∈ rest, t0 ≤ t ∧ t - t0 < W :=
      fun t ht => hwin t (List.mem_cons_of_mem _ ht)
    have hpurge : purgeTimestamps W now acc = acc := by
      apply List.filter_eq_self.mpr
      intro t ht
      have h1 := hacc t ht
      simp only [decide_eq_true_eq]
      omega
    by_cases hlen : N ≤ acc.length
    · have hstep : isAllowed N W now acc = (false, acc) := by
        simp [isAllowed, hpurge, hlen]
      simp only [runCalls, hstep]
      rw [ih acc hwin' hacc, List.length_cons, List.range_succ_eq_map,
        List.map_cons, List.map_map]
      congr 1
      · exact (decide_eq_false (by omega)).symm
      · apply List.map_congr_left
        intro i _
        have h1 : ¬ (acc.length + i < N) := by omega
        have h2 : ¬ (acc.length + (i + 1) < N) := by omega
        simp [h1, h2, Function.comp, Nat.succ_eq_add_one]
    · have hstep : isAllowed N W now acc = (true, acc ++ [now]) := by
        simp [isAllowed, hpurge, hlen]
      have hacc' : ∀ t ∈ acc ++ [now], t0 ≤ t := by
        intro t ht
        rcases List.mem_append.mp ht with h | h
        · exact hacc t h
        · rcases List.mem_singleton.mp h with rfl
          exact hw.1
      simp only [runCalls, hstep]
      rw [ih (acc ++ [now]) hwin' hacc', List.length_cons, List.range_succ_eq_map,
        List.map_cons, List.map_map]
      congr 1
      · exact (decide_eq_true (by omega)).symm
      · apply List.map_congr_left
        intro i _
        simp only [List.length_append, List.length_singleton, Function.comp,
          Nat.succ_eq_add_one]
        have h1 : acc.length + 1 + i = acc.length + (i + 1) := by omega
        rw [h1]

/-- C6 — Per-call behaviour of `RateLimiter.IsAllowed` and its
consequences: each call first drops the timestamps aged at least `W`
(the code's reading of "older than `now - W`": `now.Sub(t) < window` is
the keep-condition), then rejects without recording when at least `N`
remain, else records `now` and accepts. Hence within any interval of
length `< W` starting from first use, exactly the first `N` calls are
admitted and every later one (in particular the `(N+1)`-th) is rejected,
and after an idle period of at least `W` a fresh call is admitted. -/
theorem rateLimiter_sliding_window (N : Nat) (W t0 now : Int)
    (ts times : List Int)
    (hN : 1 ≤ N)
    (hwin : ∀ t ∈ times, t0 ≤ t ∧ t - t0 < W)
    (hidle : ∀ t ∈ ts, W ≤ now - t) :
    (∀ (ts' : List Int) (n' : Int),
        isAllowed N W n' ts' =
          if N ≤ (ts'.filter (fun t => n' - t < W)).length
          then (false, ts'.filter (fun t => n' - t < W))
          else (true, ts'.filter (fun t => n' - t < W) ++ [n'])) ∧
      (runCalls N W times []).1 =
        (List.range times.length).map (fun i => decide (i < N)) ∧
      (isAllowed N W now ts).1 = true := by
  refine ⟨fun ts' n' => rfl, ?_, ?_⟩
  · have h := runCalls_in_window N W t0 times [] hwin (by simp)
    simpa using h
  · have hpurge : purgeTimestamps W now ts = [] := by
      apply List.filter_eq_nil_iff.mpr
      intro t ht
      have h1 := hidle t ht
      simp only [decide_eq_true_eq, not_lt]
      omega
    simp only [isAllowed, hpurge, List.length_nil]
    rw [if_neg (by omega)]

/-- Witness for `rateLimiter_sliding_window`: quota 2, window 10, calls at
times 0, 3, 5 (first two admitted, third rejected), and a fresh call at
time 100 against timestamps 1, 2 (admitted). -/
theorem rateLimiter_sliding_window_witness :
    (runCalls 2 10 [0, 3, 5] []).1 = [true, true, false] ∧
      (isAllowed 2 10 100 [1, 2]).1 = true := by
  have h := rateLimiter_sliding_window 2 10 0 100 [1, 2] [0, 3, 5]
    (by decide) (by decide) (by decide)
  refine ⟨?_, h.2.2⟩
  rw [h.2.1]
  decide

/-- A successful block lookup pins the 1-based block number inside the
configured list. -/
lemma getBlockAt_bounds {cfg : Cfg} {b : Nat} {blk : Block}
    (h : getBlockAt cfg b = some blk) : 1 ≤ b ∧ b ≤ cfg.blocks.length := by
  unfold getBlockAt at h
  split at h
  · rename_i h1
    obtain ⟨hlt, -⟩ := List.get?_eq_some.mp h
    exact ⟨h1, by omega⟩
  · exact absurd h (by simp)

/-- Sanity: `/start` from a fresh session indeed reaches `sWaitA`. -/
lemma start_reaches_sWaitA :
    runEventsS cfgA [.cmd .start 0 "id1"] (freshSession 7 0) envAllOk = some sWaitA := by
  simp +decide [runEventsS, runEvents, handleEvent, handleCommand, initializeInterview,
    resetSession, startNextBlock, generateNextQuestion, finishCurrentBlock,
    completeInterview, processUserAnswer, handleUserInput, validateUserInput,
    getBlockAt, popSummary, popSave, setLastAnswer, freshSession, cfgA, blockA,
    envAllOk, Cfg.maxQuestions, sWaitA]

/-- C2 is false on the code: `validateUserInput` never rejects empty text
(an empty answer is accepted and the counter increments), and the
repeated-character check counts only the first character, so a text whose
dominant character is not its first (here 11 of 12 characters are `b`,
more than 80%) is accepted as well. -/
theorem validateUserInput_gate_cex :
    validateUserInput "" = none ∧
      validateUserInput "abbbbbbbbbbb" = none ∧
      "abbbbbbbbbbb".length = 12 ∧ "abbbbbbbbbbb".toList.count 'b' = 11 ∧
      (handleUserInput cfgA 5 "" sWaitA envAllOk).map (fun r => r.1.questionCount) =
        some 1 ∧
      sWaitA.questionCount = 0 := by
  refine ⟨by decide, by decide, by decide, by decide, ?_, by decide⟩
  simp +decide [handleUserInput, processUserAnswer, finishCurrentBlock, startNextBlock,
    generateNextQuestion, completeInterview, validateUserInput, getBlockAt,
    popSummary, popSave, setLastAnswer, sWaitA, cfgA, blockA, envAllOk, Cfg.maxQuestions]

/-- C2 (amended) — While the session awaits an answer, the input is
rejected — reported with session and oracle untouched, the same question
still pending — if and only if the text is longer than 4000, or is longer
than 10 with its first character making up more than `⌊8·len/10⌋` of it;
empty text in particular is accepted, and a validated answer refreshes
`LastActivity` and is processed. -/
theorem handleUserInput_validation_gate (cfg : Cfg) (now : Int) (text : String)
    (s : UserSession) (env : Env) (hw : s.state = .waitingAnswer) :
    ((validateUserInput text).isSome ↔
      (4000 < text.length ∨ ∃ c cs, text.toList = c :: cs ∧ 10 < text.length ∧
        text.length * 8 / 10 < text.toList.count c)) ∧
    ((validateUserInput text).isSome →
      handleUserInput cfg now text s env = some (s, env, [.validationTooLong]) ∨
      handleUserInput cfg now text s env = some (s, env, [.validationRepeated])) ∧
    (validateUserInput text = none →
      handleUserInput cfg now text s env =
        processUserAnswer cfg text { s with lastActivity := now } env) := by
  refine ⟨⟨?_, ?_⟩, ?_, ?_⟩
  · intro hsome
    by_cases h4 : 4000 < text.length
    · exact Or.inl h4
    · right
      rw [validateUserInput, if_neg h4] at hsome
      replace hsome : (match text.data with
          | [] => none
          | c :: _ =>
            if 10 < text.length ∧ text.length * 8 / 10 < List.count c text.data
            then some ValErr.repeatedChars else none).isSome = true := hsome
      show ∃ c cs, text.data = c :: cs ∧ 10 < text.length ∧
        text.length * 8 / 10 < List.count c text.data
      cases htl : text.data with
      | nil => rw [htl] at hsome; simp at hsome
      | cons c cs =>
        rw [htl] at hsome
        dsimp only at hsome
        by_cases hrep : 10 < text.length ∧ text.length * 8 / 10 < List.count c (c :: cs)
        · exact ⟨c, cs, rfl, hrep.1, hrep.2⟩
        · rw [if_neg hrep] at hsome
          simp at hsome
  · intro h
    by_cases h4 : 4000 < text.length
    · simp [validateUserInput, h4]
    · rcases h with h4' | ⟨c, cs, htl, h10, hcnt⟩
      · exact absurd h4' h4
      · have htl' : text.data = c :: cs := htl
        have hcnt' : text.length * 8 / 10 < List.count c (c :: cs) := by
          have h0 : text.length * 8 / 10 < List.count c text.data := hcnt
          rw [htl'] at h0
          exact h0
        rw [validateUserInput, if_neg h4]
        show (match text.data with
            | [] => none
            | c :: _ =>
              if 10 < text.length ∧ text.length * 8 / 10 < List.count c text.data
              then some ValErr.repeatedChars else none).isSome = true
        rw [htl']
        dsimp only
        rw [if_pos ⟨h10, hcnt'⟩]
        rfl
  · intro hsome
    rw [handleUserInput, if_neg (by simp [hw])]
    rcases hv : validateUserInput text with _ | e
    · rw [hv] at hsome
      simp at hsome
    · cases e
      · exact Or.inl rfl
      · exact Or.inr rfl
  · intro hnone
    rw [handleUserInput, if_neg (by simp [hw]), hnone]

/-- Witness for `handleUserInput_validation_gate`: a 12-character
single-character answer is rejected with the session untouched. -/
theorem handleUserInput_validation_gate_witness :
    handleUserInput cfgA 5 "aaaaaaaaaaaa" sWaitA envAllOk =
        some (sWaitA, envAllOk, [.validationTooLong]) ∨
      handleUserInput cfgA 5 "aaaaaaaaaaaa" sWaitA envAllOk =
        some (sWaitA, envAllOk, [.validationRepeated]) :=
  (handleUserInput_validation_gate cfgA 5 "aaaaaaaaaaaa" sWaitA envAllOk rfl).2.1
    (by decide)

/-- C5 is false on the code: when persisting the result fails at interview
completion, `completeInterview` returns before `session.State =
StateCompleted` is executed — the session stays in `WaitingAnswer`, it is
not marked completed. -/
theorem completeInterview_not_completed_cex :
    (runEventsS cfgA [.cmd .start 0 "id1", .text "hello" 1] (freshSession 7 0)
        envSaveFail).map (fun s => s.state) = some .waitingAnswer ∧
      SessionState.waitingAnswer ≠ .completed := by
  refine ⟨?_, by decide⟩
  simp +decide [runEventsS, runEvents, handleEvent, handleCommand, initializeInterview,
    resetSession, startNextBlock, generateNextQuestion, finishCurrentBlock,
    completeInterview, processUserAnswer, handleUserInput, validateUserInput,
    getBlockAt, popSummary, popSave, setLastAnswer, freshSession, cfgA, blockA,
    envSaveFail, Cfg.maxQuestions]

/-- C5 (amended) — When persisting the `InterviewResult` fails, the
failure is reported to the user and the session is left exactly as it
was — in particular NOT marked `Completed`; the session is marked
`Completed` (and completion is announced) only when the save succeeds. -/
theorem completeInterview_save_semantics (s : UserSession) (env : Env) (msgs : List Msg) :
    (env.save env.svIdx = false →
      completeInterview s env msgs =
        some (s, { env with svIdx := env.svIdx + 1 }, msgs ++ [.saveError])) ∧
    (env.save env.svIdx = true →
      completeInterview s env msgs =
        some ({ s with state := .completed }, { env with svIdx := env.svIdx + 1 },
          msgs ++ [.analysisStarted, .completionInfo])) := by
  constructor <;> intro h <;> simp [completeInterview, popSave, h]

/-- Witness for `completeInterview_save_semantics` on a failing save. -/
theorem completeInterview_save_semantics_witness :
    completeInterview sWaitA envSaveFail [] =
      some (sWaitA, { envSaveFail with svIdx := 1 }, [Msg.saveError]) :=
  (completeInterview_save_semantics sWaitA envSaveFail []).1 rfl

/-- C4 is false on the code: after a failed summarization the session is
not left as it was — the answer is recorded in the dialogue and the
counter has been incremented (from 0 to 1 here), although the state stays
`WaitingAnswer` for a retry. -/
theorem processUserAnswer_mutates_on_failure_cex :
    (handleUserInput cfgA 5 "hello" sWaitA envSummaryFail).map
        (fun r => (r.1.questionCount, r.1.state, r.1.currentDialogue)) =
      some (1, .waitingAnswer, [{ question := "Q1", answer := "hello" }]) ∧
      sWaitA.questionCount = 0 ∧
      sWaitA.currentDialogue = [{ question := "Q1", answer := "" }] := by
  refine ⟨?_, by decide, by decide⟩
  simp +decide [handleUserInput, processUserAnswer, finishCurrentBlock, startNextBlock,
    generateNextQuestion, completeInterview, validateUserInput, getBlockAt,
    popSummary, popSave, setLastAnswer, sWaitA, cfgA, blockA, envSummaryFail,
    Cfg.maxQuestions]

/-- C4 (amended) — When a valid answer triggers block completion and the
summarization call fails, the state, block index, accumulated result and
summaries, and the pending-question structure are preserved and the user
may retry; but the step is not atomic: the answer has been recorded, the
counter incremented and `LastActivity` refreshed before the failure. -/
theorem summarizeFailure_partial_mutation (cfg : Cfg) (now : Int) (text : String)
    (s : UserSession) (env : Env) (blk : Block)
    (hw : s.state = .waitingAnswer)
    (hv : validateUserInput text = none)
    (hfin : cfg.maxQuestions ≤ s.questionCount + 1)
    (hb : getBlockAt cfg s.currentBlock = some blk)
    (hsf : env.summarize env.sIdx = none) :
    handleUserInput cfg now text s env =
      some ({ s with
          currentDialogue := setLastAnswer s.currentDialogue text
          questionCount := s.questionCount + 1
          lastActivity := now },
        { env with sIdx := env.sIdx + 1 },
        [.processingBlock, .summaryError]) := by
  rw [handleUserInput, if_neg (by simp [hw]), hv, processUserAnswer]
  rw [if_neg (by simp; omega)]
  rw [finishCurrentBlock, dif_pos (getBlockAt_bounds hb)]
  simp only [popSummary, hsf]
  rfl

/-! ### Config-validation lemmas -/

lemma checkBlocks_get (bs : List Block) :
    ∀ (i j : Nat) (blk : Block),
      checkBlocks i bs = true → bs.get? j = some blk → blk.id = i + j + 1 := by
  induction bs with
  | nil => intro i j blk _ hj; simp at hj
  | cons b rest ih =>
    intro i j blk hch hj
    rw [checkBlocks, Bool.and_eq_true, Bool.and_eq_true, Bool.and_eq_true,
      Bool.and_eq_true] at hch
    obtain ⟨⟨⟨⟨hid, -⟩, -⟩, -⟩, hrest⟩ := hch
    match j, hj with
    | 0, hj =>
      have hb : b = blk := by simpa using hj
      subst hb
      have hide : b.id = i + 1 := by simpa using hid
      omega
    | j + 1, hj =>
      have h1 := ih (i + 1) j blk hrest (by simpa using hj)
      omega

lemma validateConfig_facts (cfg : Cfg) (h : validateConfig cfg = true) :
    0 < cfg.totalBlocks ∧ 0 < cfg.questionsPerBlock ∧
      cfg.blocks.length = cfg.totalBlocks ∧ checkBlocks 0 cfg.blocks = true := by
  rw [validateConfig, Bool.and_eq_true, Bool.and_eq_true, Bool.and_eq_true] at h
  obtain ⟨⟨⟨h1, h2⟩, h3⟩, h4⟩ := h
  exact ⟨by simpa using h1, by simpa using h2, by simpa using h3, h4⟩

/-- Under a validated configuration, a successful 1-based block access
returns the block whose configured ID is the block number itself. -/
lemma validateConfig_blockAt (cfg : Cfg) (h : validateConfig cfg = true)
    {b : Nat} {blk : Block} (hb : getBlockAt cfg b = some blk) : blk.id = b := by
  rw [getBlockAt] at hb
  split at hb
  · rename_i h1
    have h2 := checkBlocks_get cfg.blocks 0 (b - 1) blk (validateConfig_facts cfg h).2.2.2 hb
    omega
  · exact absurd hb (by simp)

/-- The `EnvOk` property only constrains the oracle functions, not the call counters. -/
lemma EnvOk_any_idx {env : Env} (henv : EnvOk env) (i j : Nat) :
    EnvOk { env with sIdx := i, svIdx := j } := henv

/-- The block-advance chain (`finishCurrentBlock` / `generateNextQuestion`
/ `startNextBlock`) preserves the question-budget invariant when summaries
and saves always succeed, by strong induction on
`3 * (blocks.length + 2 - currentBlock) + phase`. -/
lemma chainInv3 (cfg : Cfg) (hq : 0 < cfg.questionsPerBlock) :
    ∀ (n : Nat) (s : UserSession) (env : Env) (msgs : List Msg),
      EnvOk env →
      ((3 * (cfg.blocks.length + 2 - s.currentBlock) ≤ n →
          s.questionCount ≤ cfg.maxQuestions →
          ∀ r, finishCurrentBlock cfg s env msgs = some r →
            Inv3 cfg r.1 ∧ EnvOk r.2.1) ∧
        (3 * (cfg.blocks.length + 2 - s.currentBlock) + 1 ≤ n →
          s.questionCount < cfg.maxQuestions →
          ∀ r, generateNextQuestion cfg s env msgs = some r →
            Inv3 cfg r.1 ∧ EnvOk r.2.1) ∧
        (3 * (cfg.blocks.length + 2 - s.currentBlock) + 2 ≤ n →
          s.questionCount ≤ cfg.maxQuestions →
          ∀ r, startNextBlock cfg s env msgs = some r →
            Inv3 cfg r.1 ∧ EnvOk r.2.1)) := by
  intro n
  induction n using Nat.strong_induction_on with
  | _ n ih =>
    intro s env msgs henv
    refine ⟨?_, ?_, ?_⟩
    · -- finishCurrentBlock
      intro hn hc r hr
      rw [finishCurrentBlock] at hr
      split at hr
      case isFalse => exact absurd hr (by simp)
      case isTrue hok =>
        rw [popSummary] at hr
        obtain ⟨w, hw⟩ := Option.isSome_iff_exists.mp (henv.1 env.sIdx)
        rw [hw] at hr
        dsimp only at hr
        rcases hres : s.result with _ | r0
        · rw [hres] at hr
          exact absurd hr (by simp)
        · rw [hres] at hr
          dsimp only at hr
          have henv' : EnvOk { env with sIdx := env.sIdx + 1 } := EnvOk_any_idx henv _ _
          exact (ih (n - 1) (by omega) _ _ _ henv').2.2
            (by show 3 * (cfg.blocks.length + 2 - (s.currentBlock + 1)) + 2 ≤ n - 1
                omega)
            (by show s.questionCount ≤ cfg.maxQuestions
                exact hc) r hr
    · -- generateNextQuestion
      intro hn hc r hr
      rw [generateNextQuestion] at hr
      split at hr
      · exact absurd hr (by simp)
      · split at hr
        · exact (ih (n - 1) (by omega) s env msgs henv).1 (by omega)
            (Nat.le_of_lt hc) r hr
        · have hr' : _ = r := Option.some.inj hr
          subst hr'
          exact ⟨⟨Nat.le_of_lt hc, fun _ => hc⟩, henv⟩
    · -- startNextBlock
      intro hn hc r hr
      rw [startNextBlock] at hr
      split at hr
      · -- completeInterview
        rw [completeInterview, popSave] at hr
        dsimp only at hr
        rw [henv.2 env.svIdx] at hr
        simp only [if_true] at hr
        have hr' : _ = r := Option.some.inj hr
        subst hr'
        refine ⟨⟨hc, fun hwa => ?_⟩, EnvOk_any_idx henv _ _⟩
        exact absurd hwa (by simp)
      · split at hr
        · exact absurd hr (by simp)
        · exact (ih (n - 1) (by omega) _ _ _ henv).2.1
            (by show 3 * (cfg.blocks.length + 2 - s.currentBlock) + 1 ≤ n - 1
                omega)
            (by show (0 : Nat) < cfg.maxQuestions
                unfold Cfg.maxQuestions
                omega) r hr

/-- One inbound event preserves the question-budget invariant when the
oracle always succeeds. -/
lemma handleEvent_inv3 (cfg : Cfg) (hq : 0 < cfg.questionsPerBlock)
    (e : Event) (s : UserSession) (env : Env)
    (henv : EnvOk env) (hinv : Inv3 cfg s) :
    ∀ r, handleEvent cfg e s env = some r → Inv3 cfg r.1 ∧ EnvOk r.2.1 := by
  have hchain := chainInv3 cfg hq (3 * (cfg.blocks.length + 2) + 3)
  intro r hr
  cases e with
  | cmd c now newID =>
    rw [handleEvent] at hr
    cases c with
    | start =>
      rw [handleCommand] at hr
      split at hr
      · have hr' : _ = r := Option.some.inj hr
        subst hr'
        exact ⟨hinv, henv⟩
      · rw [initializeInterview] at hr
        exact (hchain _ env _ henv).2.2
          (by show 3 * (cfg.blocks.length + 2 - 1) + 2 ≤ 3 * (cfg.blocks.length + 2) + 3
              omega)
          (by show (0 : Nat) ≤ cfg.maxQuestions
              omega) r hr
    | help =>
      have hr' : _ = r := Option.some.inj hr
      subst hr'
      exact ⟨hinv, henv⟩
    | status =>
      have hr' : _ = r := Option.some.inj hr
      subst hr'
      exact ⟨hinv, henv⟩
    | restart =>
      have hr' : _ = r := Option.some.inj hr
      subst hr'
      exact ⟨⟨Nat.zero_le _, fun h => nomatch h⟩, henv⟩
    | stop =>
      rw [handleCommand] at hr
      split at hr
      · have hr' : _ = r := Option.some.inj hr
        subst hr'
        exact ⟨hinv, henv⟩
      · have hr' : _ = r := Option.some.inj hr
        subst hr'
        exact ⟨⟨Nat.zero_le _, fun h => nomatch h⟩, henv⟩
    | getprofile =>
      rw [handleCommand] at hr
      split at hr
      · have hr' : _ = r := Option.some.inj hr
        subst hr'
        exact ⟨hinv, henv⟩
      · have hr' : _ = r := Option.some.inj hr
        subst hr'
        exact ⟨hinv, henv⟩
    | getsummary =>
      rw [handleCommand] at hr
      split at hr
      · have hr' : _ = r := Option.some.inj hr
        subst hr'
        exact ⟨hinv, henv⟩
      · have hr' : _ = r := Option.some.inj hr
        subst hr'
        exact ⟨hinv, henv⟩
    | unknown =>
      have hr' : _ = r := Option.some.inj hr
      subst hr'
      exact ⟨hinv, henv⟩
  | text t now =>
    rw [handleEvent, handleUserInput] at hr
    split at hr
    · have hr' : _ = r := Option.some.inj hr
      subst hr'
      exact ⟨hinv, henv⟩
    · rename_i hstate
      have hwa : s.state = .waitingAnswer := not_not.mp hstate
      have hlt := hinv.2 hwa
      split at hr
      · have hr' : _ = r := Option.some.inj hr
        subst hr'
        exact ⟨hinv, henv⟩
      · have hr' : _ = r := Option.some.inj hr
        subst hr'
        exact ⟨hinv, henv⟩
      · rw [processUserAnswer] at hr
        dsimp only at hr
        split at hr
        · rename_i hcond
          exact (hchain _ env _ henv).2.1
            (by show 3 * (cfg.blocks.length + 2 - s.currentBlock) + 1 ≤
                  3 * (cfg.blocks.length + 2) + 3
                omega)
            (by show s.questionCount + 1 < cfg.maxQuestions
                exact hcond) r hr
        · rename_i hcond
          exact (hchain _ env _ henv).1
            (by show 3 * (cfg.blocks.length + 2 - s.currentBlock) ≤
                  3 * (cfg.blocks.length + 2) + 3
                omega)
            (by show s.questionCount + 1 ≤ cfg.maxQuestions
                omega) r hr

/-- Event sequences preserve the question-budget invariant under an
always-successful oracle. -/
lemma runEvents_inv3 (cfg : Cfg) (hq : 0 < cfg.questionsPerBlock) :
    ∀ (events : List Event) (s : UserSession) (env : Env),
      EnvOk env → Inv3 cfg s →
      ∀ p, runEvents cfg events s env = some p → Inv3 cfg p.1 ∧ EnvOk p.2 := by
  intro events
  induction events with
  | nil =>
    intro s env henv hinv p hp
    rw [runEvents] at hp
    have hp' : _ = p := Option.some.inj hp
    subst hp'
    exact ⟨hinv, henv⟩
  | cons e es ih =>
    intro s env henv hinv p hp
    rw [runEvents] at hp
    rcases hse : handleEvent cfg e s env with _ | ⟨s', env', msgs⟩
    · rw [hse] at hp
      exact absurd hp (by simp)
    · rw [hse] at hp
      dsimp only at hp
      have h1 := handleEvent_inv3 cfg hq e s env henv hinv _ hse
      exact ih s' env' h1.2 h1.1 p hp

/-- C3 (amended) — Starting from a fresh session, for every sequence of
inbound events, as long as every summarization and every persistence call
succeeds, `questionsAskedInBlock` never exceeds
`questionsPerBlock + maxFollowupQuestions` in any reachable session state
(the bound can be exceeded when a block-finishing call fails and the user
retries). -/
theorem questionCount_bounded_of_oracle_ok (cfg : Cfg) (events : List Event)
    (uid t0 : Int) (env : Env) (s' : UserSession)
    (hq : 0 < cfg.questionsPerBlock)
    (henv : EnvOk env)
    (hrun : runEventsS cfg events (freshSession uid t0) env = some s') :
    s'.questionCount ≤ cfg.questionsPerBlock + cfg.maxFollowupQuestions := by
  rw [runEventsS] at hrun
  rcases hp : runEvents cfg events (freshSession uid t0) env with _ | p
  · rw [hp] at hrun
    exact absurd hrun (by simp)
  · rw [hp] at hrun
    have h2 : p.1 = s' := by simpa using hrun
    have h3 := runEvents_inv3 cfg hq events (freshSession uid t0) env henv
      ⟨Nat.zero_le _, fun h => nomatch h⟩ p hp
    rw [← h2]
    exact h3.1.1

/-- C3 is false as stated on the code: with the valid one-block
configuration `cfgA` (budget `questionsPerBlock + maxFollowupQuestions =
1`), when the block summarization fails and the user retries, the counter
reaches 2 — the mutation of `processUserAnswer` happens before the
fallible call and is repeated on retry. -/
theorem questionCount_exceeds_bound_cex :
    validateConfig cfgA = true ∧
      cfgA.questionsPerBlock + cfgA.maxFollowupQuestions = 1 ∧
      (runEventsS cfgA [.cmd .start 0 "id1", .text "hello" 1, .text "world" 2]
          (freshSession 7 0) envSummaryFail).map (fun s => s.questionCount) =
        some 2 ∧
      ¬ ((2 : Nat) ≤ 1) := by
  refine ⟨by decide, by decide, ?_, by decide⟩
  simp +decide [runEventsS, runEvents, handleEvent, handleCommand, initializeInterview,
    resetSession, startNextBlock, generateNextQuestion, finishCurrentBlock,
    completeInterview, processUserAnswer, handleUserInput, validateUserInput,
    getBlockAt, popSummary, popSave, setLastAnswer, freshSession, cfgA, blockA,
    envSummaryFail, Cfg.maxQuestions]

/-- Sanity: the two-event happy path indeed reaches `sDoneA`. -/
lemma run_reaches_sDoneA :
    runEventsS cfgA [.cmd .start 0 "id1", .text "hello" 1] (freshSession 7 0) envAllOk =
      some sDoneA := by
  simp +decide [runEventsS, runEvents, handleEvent, handleCommand, initializeInterview,
    resetSession, startNextBlock, generateNextQuestion, finishCurrentBlock,
    completeInterview, processUserAnswer, handleUserInput, validateUserInput,
    getBlockAt, popSummary, popSave, setLastAnswer, freshSession, cfgA, blockA,
    envAllOk, Cfg.maxQuestions, sDoneA]

/-- Witness for `questionCount_bounded_of_oracle_ok` on the happy-path
trace. -/
theorem questionCount_bounded_witness :
    sDoneA.questionCount ≤ cfgA.questionsPerBlock + cfgA.maxFollowupQuestions :=
  questionCount_bounded_of_oracle_ok cfgA [.cmd .start 0 "id1", .text "hello" 1]
    7 0 envAllOk sDoneA (by decide) ⟨fun _ => rfl, fun _ => rfl⟩ run_reaches_sDoneA

lemma InvR_of_pre {cfg : Cfg} {s : UserSession} (pre : ChainPre cfg s) :
    InvR cfg s := by
  refine ⟨fun _ => pre.2, fun hc => ?_⟩
  rcases pre.1 with h | h <;> rw [h] at hc <;> exact absurd hc (by simp)

/-- The block-advance chain preserves the block-result invariant under a
validated configuration, for an arbitrary oracle. -/
lemma chainInvR (cfg : Cfg) (hvc : validateConfig cfg = true) :
    ∀ (n : Nat) (s : UserSession) (env : Env) (msgs : List Msg),
      ChainPre cfg s →
      ((3 * (cfg.blocks.length + 2 - s.currentBlock) ≤ n →
          ∀ r, finishCurrentBlock cfg s env msgs = some r → InvR cfg r.1) ∧
        (3 * (cfg.blocks.length + 2 - s.currentBlock) + 1 ≤ n →
          ∀ r, generateNextQuestion cfg s env msgs = some r → InvR cfg r.1) ∧
        (3 * (cfg.blocks.length + 2 - s.currentBlock) + 2 ≤ n →
          ∀ r, startNextBlock cfg s env msgs = some r → InvR cfg r.1)) := by
  intro n
  induction n using Nat.strong_induction_on with
  | _ n ih =>
    intro s env msgs pre
    refine ⟨?_, ?_, ?_⟩
    · -- finishCurrentBlock
      intro hn r hr
      rw [finishCurrentBlock] at hr
      split at hr
      case isFalse => exact absurd hr (by simp)
      case isTrue hok =>
        rw [popSummary] at hr
        rcases hsum : env.summarize env.sIdx with _ | w
        · rw [hsum] at hr
          dsimp only at hr
          have hr' : _ = r := Option.some.inj hr
          subst hr'
          exact InvR_of_pre pre
        · rw [hsum] at hr
          dsimp only at hr
          rcases hres : s.result with _ | r0
          · rw [hres] at hr
            exact absurd hr (by simp)
          · rw [hres] at hr
            dsimp only at hr
            obtain ⟨r0', hres', hmap, hb1, hb2⟩ := pre.2
            have hr0 : r0' = r0 := Option.some.inj (hres'.symm.trans hres)
            rw [hr0] at hmap
            have hget : getBlockAt cfg s.currentBlock =
                some (cfg.blocks.get ⟨s.currentBlock - 1, by omega⟩) := by
              rw [getBlockAt, if_pos hok.1]
              exact List.get?_eq_get _
            have hid := validateConfig_blockAt cfg hvc hget
            have hlen := (validateConfig_facts cfg hvc).2.2.1
            refine (ih (n - 1) (by omega) _ _ _ ?_).2.2
              (by show 3 * (cfg.blocks.length + 2 - (s.currentBlock + 1)) + 2 ≤ n - 1
                  omega) r hr
            refine ⟨pre.1, _, rfl, ?_, ?_, ?_⟩
            · show (r0.blocks ++
                  [({ blockID := (cfg.blocks.get ⟨s.currentBlock - 1, by omega⟩).id
                      blockName := (cfg.blocks.get ⟨s.currentBlock - 1, by omega⟩).name
                      questionsAndAnswers := s.currentDialogue } : BlockResult)]).map
                    (fun br => br.blockID) =
                  List.range' 1 (s.currentBlock + 1 - 1)
              rw [List.map_append, hmap]
              simp only [List.map_cons, List.map_nil]
              rw [hid]
              have hcat := @List.range'_concat 1 1 (s.currentBlock - 1)
              have e1 : s.currentBlock - 1 + 1 = s.currentBlock := by omega
              have e2 : 1 + 1 * (s.currentBlock - 1) = s.currentBlock := by omega
              rw [e1, e2] at hcat
              rw [show s.currentBlock + 1 - 1 = s.currentBlock from by omega]
              exact hcat.symm
            · show 1 ≤ s.currentBlock + 1
              omega
            · show s.currentBlock + 1 ≤ cfg.totalBlocks + 1
              omega
    · -- generateNextQuestion
      intro hn r hr
      rw [generateNextQuestion] at hr
      split at hr
      · exact absurd hr (by simp)
      · split at hr
        · exact (ih (n - 1) (by omega) s env msgs pre).1 (by omega) r hr
        · have hr' : _ = r := Option.some.inj hr
          subst hr'
          refine ⟨fun _ => ?_, fun hc => absurd hc (by simp)⟩
          obtain ⟨r0, hres, hmap, hb1, hb2⟩ := pre.2
          exact ⟨r0, hres, hmap, hb1, hb2⟩
    · -- startNextBlock
      intro hn r hr
      rw [startNextBlock] at hr
      split at hr
      · rename_i hgt
        rw [completeInterview, popSave] at hr
        dsimp only at hr
        obtain ⟨r0, hres, hmap, hb1, hb2⟩ := pre.2
        cases hsv : env.save env.svIdx with
        | false =>
          rw [hsv] at hr
          rw [if_neg (by simp)] at hr
          have hr' : _ = r := Option.some.inj hr
          subst hr'
          exact InvR_of_pre pre
        | true =>
          rw [hsv] at hr
          rw [if_pos rfl] at hr
          have hr' : _ = r := Option.some.inj hr
          subst hr'
          refine ⟨fun h => ?_, fun _ => ⟨r0, hres, ?_⟩⟩
          · rcases h with h | h <;> exact absurd h (by simp)
          · rw [hmap, show s.currentBlock - 1 = cfg.totalBlocks from by omega]
      · split at hr
        · exact absurd hr (by simp)
        · refine (ih (n - 1) (by omega) _ env _ ?_).2.1
            (by show 3 * (cfg.blocks.length + 2 - s.currentBlock) + 1 ≤ n - 1
                omega) r hr
          obtain ⟨r0, hres, hmap, hb1, hb2⟩ := pre.2
          exact ⟨pre.1, r0, hres, hmap, hb1, hb2⟩

/-- One inbound event preserves the block-result invariant. -/
lemma handleEvent_invR (cfg : Cfg) (hvc : validateConfig cfg = true)
    (e : Event) (s : UserSession) (env : Env) (hinv : InvR cfg s) :
    ∀ r, handleEvent cfg e s env = some r → InvR cfg r.1 := by
  have hchain := chainInvR cfg hvc (3 * (cfg.blocks.length + 2) + 3)
  intro r hr
  cases e with
  | cmd c now newID =>
    rw [handleEvent] at hr
    cases c with
    | start =>
      rw [handleCommand] at hr
      split at hr
      · have hr' : _ = r := Option.some.inj hr
        subst hr'
        exact hinv
      · rw [initializeInterview] at hr
        refine (hchain _ env _ ?_).2.2
          (by show 3 * (cfg.blocks.length + 2 - 1) + 2 ≤ 3 * (cfg.blocks.length + 2) + 3
              omega) r hr
        refine ⟨Or.inl rfl, _, rfl, ?_, ?_, ?_⟩
        · show ([] : List BlockResult).map (fun br => br.blockID) =
            List.range' 1 (1 - 1)
          simp
        · show (1 : Nat) ≤ 1
          omega
        · show (1 : Nat) ≤ cfg.totalBlocks + 1
          omega
    | help =>
      have hr' : _ = r := Option.some.inj hr
      subst hr'
      exact hinv
    | status =>
      have hr' : _ = r := Option.some.inj hr
      subst hr'
      exact hinv
    | restart =>
      have hr' : _ = r := Option.some.inj hr
      subst hr'
      exact ⟨fun h => h.elim (fun h1 => nomatch h1) (fun h1 => nomatch h1), fun h => nomatch h⟩
    | stop =>
      rw [handleCommand] at hr
      split at hr
      · have hr' : _ = r := Option.some.inj hr
        subst hr'
        exact hinv
      · have hr' : _ = r := Option.some.inj hr
        subst hr'
        exact ⟨fun h => h.elim (fun h1 => nomatch h1) (fun h1 => nomatch h1), fun h => nomatch h⟩
    | getprofile =>
      rw [handleCommand] at hr
      split at hr
      · have hr' : _ = r := Option.some.inj hr
        subst hr'
        exact hinv
      · have hr' : _ = r := Option.some.inj hr
        subst hr'
        exact hinv
    | getsummary =>
      rw [handleCommand] at hr
      split at hr
      · have hr' : _ = r := Option.some.inj hr
        subst hr'
        exact hinv
      · have hr' : _ = r := Option.some.inj hr
        subst hr'
        exact hinv
    | unknown =>
      have hr' : _ = r := Option.some.inj hr
      subst hr'
      exact hinv
  | text t now =>
    rw [handleEvent, handleUserInput] at hr
    split at hr
    · have hr' : _ = r := Option.some.inj hr
      subst hr'
      exact hinv
    · rename_i hstate
      have hwa : s.state = .waitingAnswer := not_not.mp hstate
      split at hr
      · have hr' : _ = r := Option.some.inj hr
        subst hr'
        exact hinv
      · have hr' : _ = r := Option.some.inj hr
        subst hr'
        exact hinv
      · rw [processUserAnswer] at hr
        dsimp only at hr
        obtain ⟨r0, hres, hmap, hb1, hb2⟩ := hinv.1 (Or.inr hwa)
        split at hr
        · refine (hchain _ env _ ?_).2.1
            (by show 3 * (cfg.blocks.length + 2 - s.currentBlock) + 1 ≤
                  3 * (cfg.blocks.length + 2) + 3
                omega) r hr
          exact ⟨Or.inr hwa, r0, hres, hmap, hb1, hb2⟩
        · refine (hchain _ env _ ?_).1
            (by show 3 * (cfg.blocks.length + 2 - s.currentBlock) ≤
                  3 * (cfg.blocks.length + 2) + 3
                omega) r hr
          exact ⟨Or.inr hwa, r0, hres, hmap, hb1, hb2⟩

/-- Event sequences preserve the block-result invariant. -/
lemma runEvents_invR (cfg : Cfg) (hvc : validateConfig cfg = true) :
    ∀ (events : List Event) (s : UserSession) (env : Env),
      InvR cfg s →
      ∀ p, runEvents cfg events s env = some p → InvR cfg p.1 := by
  intro events
  induction events with
  | nil =>
    intro s env hinv p hp
    rw [runEvents] at hp
    have hp' : _ = p := Option.some.inj hp
    subst hp'
    exact hinv
  | cons e es ih =>
    intro s env hinv p hp
    rw [runEvents] at hp
    rcases hse : handleEvent cfg e s env with _ | ⟨s', env', msgs⟩
    · rw [hse] at hp
      exact absurd hp (by simp)
    · rw [hse] at hp
      dsimp only at hp
      exact ih s' env' (handleEvent_invR cfg hvc e s env hinv _ hse) p hp

/-- C9 — Under a validated configuration, every session that reaches
`Completed` carries an `InterviewResult` with exactly one `BlockResult`
per configured block: the `blockID`s are exactly `1 .. totalBlocks` in
ascending order, the entry count equals the configured block count, and
each entry matches a config block by ID. -/
theorem completed_result_blocks (cfg : Cfg) (events : List Event)
    (uid t0 : Int) (env : Env) (s' : UserSession)
    (hvc : validateConfig cfg = true)
    (hrun : runEventsS cfg events (freshSession uid t0) env = some s')
    (hdone : s'.state = .completed) :
    ∃ r, s'.result = some r ∧
      r.blocks.map (fun br => br.blockID) = List.range' 1 cfg.totalBlocks ∧
      r.blocks.length = cfg.totalBlocks ∧
      ∀ br ∈ r.blocks, ∃ blk ∈ cfg.blocks, blk.id = br.blockID := by
  rw [runEventsS] at hrun
  rcases hp : runEvents cfg events (freshSession uid t0) env with _ | p
  · rw [hp] at hrun
    exact absurd hrun (by simp)
  · rw [hp] at hrun
    have h2 : p.1 = s' := by simpa using hrun
    have hfresh : InvR cfg (freshSession uid t0) :=
      ⟨fun h => h.elim (fun h1 => nomatch h1) (fun h1 => nomatch h1), fun h => nomatch h⟩
    have hinv := runEvents_invR cfg hvc events (freshSession uid t0) env hfresh p hp
    rw [h2] at hinv
    obtain ⟨r, hres, hmap⟩ := hinv.2 hdone
    have hfacts := validateConfig_facts cfg hvc
    refine ⟨r, hres, hmap, ?_, ?_⟩
    · have hlen := congrArg List.length hmap
      simpa using hlen
    · intro br hbr
      have hmem : br.blockID ∈ List.range' 1 cfg.totalBlocks := by
        rw [← hmap]
        exact List.mem_map_of_mem _ hbr
      have hrange := List.mem_range'_1.mp hmem
      have hid : br.blockID - 1 < cfg.blocks.length := by omega
      refine ⟨cfg.blocks.get ⟨br.blockID - 1, hid⟩, List.get_mem _ _ _, ?_⟩
      have hck := checkBlocks_get cfg.blocks 0 (br.blockID - 1) _ hfacts.2.2.2
        (List.get?_eq_get hid)
      omega

/-- Witness for `completed_result_blocks` on the happy-path trace. -/
theorem completed_result_blocks_witness :
    ∃ r, sDoneA.result = some r ∧
      r.blocks.map (fun br => br.blockID) = List.range' 1 cfgA.totalBlocks ∧
      r.blocks.length = cfgA.totalBlocks ∧
      ∀ br ∈ r.blocks, ∃ blk ∈ cfgA.blocks, blk.id = br.blockID :=
  completed_result_blocks cfgA [.cmd .start 0 "id1", .text "hello" 1] 7 0 envAllOk
    sDoneA (by decide) run_reaches_sDoneA rfl

/-- The block-advance chain never touches `LastActivity`. -/
lemma chainFrame (cfg : Cfg) :
    ∀ (n : Nat) (s : UserSession) (env : Env) (msgs : List Msg),
      ((3 * (cfg.blocks.length + 2 - s.currentBlock) ≤ n →
          ∀ r, finishCurrentBlock cfg s env msgs = some r →
            r.1.lastActivity = s.lastActivity) ∧
        (3 * (cfg.blocks.length + 2 - s.currentBlock) + 1 ≤ n →
          ∀ r, generateNextQuestion cfg s env msgs = some r →
            r.1.lastActivity = s.lastActivity) ∧
        (3 * (cfg.blocks.length + 2 - s.currentBlock) + 2 ≤ n →
          ∀ r, startNextBlock cfg s env msgs = some r →
            r.1.lastActivity = s.lastActivity)) := by
  intro n
  induction n using Nat.strong_induction_on with
  | _ n ih =>
    intro s env msgs
    refine ⟨?_, ?_, ?_⟩
    · intro hn r hr
      rw [finishCurrentBlock] at hr
      split at hr
      case isFalse => exact absurd hr (by simp)
      case isTrue hok =>
        rw [popSummary] at hr
        rcases hsum : env.summarize env.sIdx with _ | w
        · rw [hsum] at hr
          dsimp only at hr
          have hr' : _ = r := Option.some.inj hr
          subst hr'
          rfl
        · rw [hsum] at hr
          dsimp only at hr
          rcases hres : s.result with _ | r0
          · rw [hres] at hr
            exact absurd hr (by simp)
          · rw [hres] at hr
            dsimp only at hr
            have h5 := (ih (n - 1) (by omega) _ _ _).2.2
              (by show 3 * (cfg.blocks.length + 2 - (s.currentBlock + 1)) + 2 ≤ n - 1
                  omega) r hr
            exact h5
    · intro hn r hr
      rw [generateNextQuestion] at hr
      split at hr
      · exact absurd hr (by simp)
      · split at hr
        · exact (ih (n - 1) (by omega) s env msgs).1 (by omega) r hr
        · have hr' : _ = r := Option.some.inj hr
          subst hr'
          rfl
    · intro hn r hr
      rw [startNextBlock] at hr
      split at hr
      · rw [completeInterview, popSave] at hr
        dsimp only at hr
        cases hsv : env.save env.svIdx with
        | false =>
          rw [hsv] at hr
          rw [if_neg (by simp)] at hr
          have hr' : _ = r := Option.some.inj hr
          subst hr'
          rfl
        | true =>
          rw [hsv] at hr
          rw [if_pos rfl] at hr
          have hr' : _ = r := Option.some.inj hr
          subst hr'
          rfl
      · split at hr
        · exact absurd hr (by simp)
        · have h5 := (ih (n - 1) (by omega) _ env _).2.1
            (by show 3 * (cfg.blocks.length + 2 - s.currentBlock) + 1 ≤ n - 1
                omega) r hr
          exact h5

/-- A validated answer stamps `LastActivity` with the time of the event,
and nothing later in the answer-processing chain changes it. -/
lemma handleUserInput_sets_lastActivity (cfg : Cfg) (now : Int) (text : String)
    (s : UserSession) (env : Env)
    (hw : s.state = .waitingAnswer) (hv : validateUserInput text = none) :
    ∀ r, handleUserInput cfg now text s env = some r → r.1.lastActivity = now := by
  have hchain := chainFrame cfg (3 * (cfg.blocks.length + 2) + 3)
  intro r hr
  rw [handleUserInput, if_neg (by simp [hw]), hv, processUserAnswer] at hr
  dsimp only at hr
  split at hr
  · have h5 := (hchain _ env []).2.1
      (by show 3 * (cfg.blocks.length + 2 - s.currentBlock) + 1 ≤
            3 * (cfg.blocks.length + 2) + 3
          omega) r hr
    exact h5
  · have h5 := (hchain _ env []).1
      (by show 3 * (cfg.blocks.length + 2 - s.currentBlock) ≤
            3 * (cfg.blocks.length + 2) + 3
          omega) r hr
    exact h5

/-- Each read-only command leaves the session (and the oracle) exactly as
it was, answering with a single message. -/
lemma readonly_cmd_frame (cfg : Cfg) (s : UserSession) (env : Env)
    (c : Cmd) (now : Int) (newID : String) (hro : ReadOnlyCmd c) :
    ∃ m, handleCommand cfg now newID c s env = some (s, env, [m]) := by
  rcases hro with h | h | h | h | h <;> subst h
  · exact ⟨.helpMsg, rfl⟩
  · exact ⟨.statusMsg, rfl⟩
  · by_cases hc2 : s.state ≠ SessionState.completed ∨ s.interviewID = ""
    · exact ⟨.profileUnavailable, by rw [handleCommand, if_pos hc2]⟩
    · exact ⟨.profileReply, by rw [handleCommand, if_neg hc2]⟩
  · by_cases hc2 : s.state ≠ SessionState.completed ∨ s.interviewID = ""
    · exact ⟨.profileUnavailable, by rw [handleCommand, if_pos hc2]⟩
    · exact ⟨.summaryReply, by rw [handleCommand, if_neg hc2]⟩
  · exact ⟨.unknownCmd, rfl⟩

/-- A sequence of read-only commands leaves the session and oracle
exactly unchanged. -/
lemma readonly_runEvents (cfg : Cfg) (s : UserSession) (env : Env) :
    ∀ (events : List Event),
      (∀ e ∈ events, ∃ c now newID, e = .cmd c now newID ∧ ReadOnlyCmd c) →
      runEvents cfg events s env = some (s, env) := by
  intro events
  induction events with
  | nil => intro _; rfl
  | cons e es ih =>
    intro hro
    obtain ⟨c, now, newID, he, hc⟩ := hro e (List.mem_cons_self _ _)
    subst he
    obtain ⟨m, hm⟩ := readonly_cmd_frame cfg s env c now newID hc
    rw [runEvents, handleEvent, hm]
    exact ih (fun e' he' => hro e' (List.mem_cons_of_mem _ he'))

/-- C10 — Read-only commands (help, status, profile/summary re-fetch,
unknown) never update `LastActivity` (they leave the session untouched);
the hourly cleanup removes every session — whatever its state, including
`Completed` — whose `LastActivity` is older than 24 hours, so issuing
read-only commands does not keep a session alive. `LastActivity` is
refreshed exactly by a validated answer, a session reset
(start/stop/restart) and session creation. -/
theorem readonly_commands_frame (cfg : Cfg) (s : UserSession) (env : Env) :
    (∀ (c : Cmd) (now : Int) (newID : String), ReadOnlyCmd c →
      ∃ m, handleCommand cfg now newID c s env = some (s, env, [m])) ∧
    (∀ (events : List Event),
      (∀ e ∈ events, ∃ c now newID, e = .cmd c now newID ∧ ReadOnlyCmd c) →
      runEvents cfg events s env = some (s, env)) ∧
    (∀ (now : Int) (sessions : List (Int × UserSession)) (uid : Int)
        (sess : UserSession), sess.lastActivity < now - maxIdle →
      (uid, sess) ∉ cleanupInactiveSessions now sessions) ∧
    (∀ (now : Int) (text : String), s.state = .waitingAnswer →
      validateUserInput text = none →
      ∀ r, handleUserInput cfg now text s env = some r →
        r.1.lastActivity = now) ∧
    (∀ now : Int, (resetSession now s).lastActivity = now ∧
      (freshSession s.userID now).lastActivity = now) := by
  refine ⟨readonly_cmd_frame cfg s env, readonly_runEvents cfg s env, ?_, ?_, ?_⟩
  · intro now sessions uid sess hold hmem
    have h2 := (List.mem_filter.mp hmem).2
    simp only [Bool.not_eq_true', decide_eq_false_iff_not] at h2
    exact h2 hold
  · intro now text hw hv
    exact handleUserInput_sets_lastActivity cfg now text s env hw hv
  · intro now
    exact ⟨rfl, rfl⟩

/-- Witness for `readonly_commands_frame`: a read-only `/status` on a
completed session leaves it unchanged, and the cleanup removes that
completed session once its `LastActivity` is more than 24 hours old. -/
theorem readonly_commands_frame_witness :
    (∃ m, handleCommand cfgA 99 "x" .status sDoneA envAllOk =
      some (sDoneA, envAllOk, [m])) ∧
      (7, sDoneA) ∉ cleanupInactiveSessions (3 * maxIdle) [(7, sDoneA)] := by
  have h := readonly_commands_frame cfgA sDoneA envAllOk
  exact ⟨h.1 .status 99 "x" (Or.inr (Or.inl rfl)),
    h.2.2.1 (3 * maxIdle) [(7, sDoneA)] 7 sDoneA (by decide)⟩

/-- Witness for `summarizeFailure_partial_mutation` at `sWaitA` with a
failing summarizer. -/
theorem summarizeFailure_partial_mutation_witness :
    handleUserInput cfgA 5 "hello" sWaitA envSummaryFail =
      some ({ sWaitA with
          currentDialogue := setLastAnswer sWaitA.currentDialogue "hello"
          questionCount := sWaitA.questionCount + 1
          lastActivity := 5 },
        { envSummaryFail with sIdx := 1 },
        [.processingBlock, .summaryError]) :=
  summarizeFailure_partial_mutation cfgA 5 "hello" sWaitA envSummaryFail blockA
    rfl (by decide) (by decide) (by decide) rfl

end InterviewBot
